import Mathlib

/-!
Verification of the SolidGuard repository's specification against its code.

The repository is a smart-contract vulnerability analyzer: a React/TypeScript
frontend (code editor, analyze/generate hooks) around an LLM classification
backend, plus project notes describing an evaluation engine (finding matcher
and metric calculators).  This file shallowly embeds the data model and the
operations the frozen claims are about:

* the `Attack` record of the frontend (`useRealtimeAnalysis`, `CodeEditor`);
* the `ATTACK_OPTIONS` list of `GeneratePanel.tsx`;
* the 300-line limit of `CodeEditor`'s `onChange` handler;
* the failure behaviour of `useAnalyzeContract.analyze`;
* the abort-controller protocol of `useRealtimeAnalysis`;
* the "new vulnerability" diff of `useRealtimeAnalysis`;
* the matcher, metric calculators and retry policy of the evaluation
  engine, which exist only as a design in the spec (marked
  `Modelled from the spec:` below).
-/

namespace SolidGuard

/-! ## Severity and the Attack record

Embedding of the TypeScript interface shared by `useRealtimeAnalysis`
(part_004) and `CodeEditor` (RealtimeToggle.tsx):

  interface Attack { type: string; severity: "low" | "medium" | "high";
                     lines: number[]; description: string; refs: string[] | null }

The `severity` union type becomes a three-constructor inductive; `type` is a
free `String` exactly as in the source; `lines` is a plain list of integers
(the TypeScript type does not force non-emptiness); `refs: string[] | null`
becomes `Option (List String)`.
-/

inductive Severity where
  | low
  | medium
  | high
deriving DecidableEq, Repr

structure Attack where
  type_ : String
  severity : Severity
  lines : List Int
  description : String
  refs : Option (List String)
deriving DecidableEq, Repr

/-- The closed set of ten attack-category values, as the `value` fields of
`ATTACK_OPTIONS` in `GeneratePanel.tsx`. -/
def attackCategoryValues : List String :=
  ["access_control", "arithmetic", "denial_of_service", "front_running",
   "initialization", "reentrancy", "signature_verification",
   "unchecked_return_value", "unencrypted_private_data",
   "unprotected_self_destruct"]

/-- One entry of the generator's attack dropdown (`GeneratePanel.tsx`). -/
structure AttackOption where
  label : String
  value : String
deriving DecidableEq, Repr

/-- The `ATTACK_OPTIONS` list of `GeneratePanel.tsx`, verbatim. -/
def ATTACK_OPTIONS : List AttackOption :=
  [⟨"Access Control", "access_control"⟩,
   ⟨"Arithmetic", "arithmetic"⟩,
   ⟨"Denial of Service", "denial_of_service"⟩,
   ⟨"Front Running", "front_running"⟩,
   ⟨"Initialization", "initialization"⟩,
   ⟨"Reentrancy", "reentrancy"⟩,
   ⟨"Signature Verification", "signature_verification"⟩,
   ⟨"Unchecked Return Value", "unchecked_return_value"⟩,
   ⟨"Unencrypted Private Data", "unencrypted_private_data"⟩,
   ⟨"Unprotected Self Destruct", "unprotected_self_destruct"⟩]

/-- The well-formedness property claimed of every Finding/Attack record at
the public interface: category in the closed enumeration and a non-empty
line list.  (Severity membership and the refs shape are enforced by the
embedded type itself.) -/
def wellFormedAttack (a : Attack) : Prop :=
  a.type_ ∈ attackCategoryValues ∧ a.lines ≠ []

instance (a : Attack) : Decidable (wellFormedAttack a) := by
  unfold wellFormedAttack; infer_instance

/-- An `Attack` value accepted by the embedded interface type whose category
is a typo outside the closed enumeration and whose line list is empty: the
TypeScript interface (`type: string`, `lines: number[]`) admits it. -/
def strayAttack : Attack :=
  { type_ := "reentrancyy"
    severity := Severity.high
    lines := []
    description := "typo category, empty lines"
    refs := none }

/-! ## The 300-line limit of the code editor

Embedding of the `onChange` handler of `CodeEditor` (RealtimeToggle.tsx,
lines 166-186): `text = val || ""`, count lines by splitting on newline,
reject (reset the editor to the prior `value` and skip the `onChange`
callback) when the count exceeds 300, otherwise forward `text`.
-/

/-- The handler's line count, `text.split("\n").length`: the number of
parts the character sequence splits into at newlines. -/
def lineCount (text : String) : Nat :=
  (text.data.splitOn '\n').length

/-- One editor change event: given the prior committed `value` and the
proposed editor content `val` (absent means empty), return the resulting
editor content and the argument passed to `onChange` (`none` when the
callback is not invoked). -/
def handleEditorChange (value : String) (val : Option String) : String × Option String :=
  let text := val.getD ""
  if lineCount text > 300 then
    (value, none)
  else
    (text, some text)

/-! ## The analyze hook

Embedding of `useAnalyzeContract.analyze` (useAnalyzeContract.ts):
state is the `isLoading` flag and the stored `result`; a classify call
either succeeds with an attacks payload (possibly null, coerced by
`data.result.attacks || []`) or fails with a non-OK HTTP response, a
parse error, or a network error.  On success the result is replaced
wholesale; on any failure the catch block deliberately keeps the previous
result; the `finally` block always resets `isLoading`.
-/

inductive Mode where
  | raw
  | rag
deriving DecidableEq, Repr

/-- The `AnalysisResult` shape of part_004 / useAnalyzeContract. -/
structure AnalysisResult where
  mode : Mode
  id : String
  solidity : String
  attacks : Option (List Attack)
deriving DecidableEq, Repr

instance : Inhabited AnalysisResult :=
  ⟨{ mode := Mode.raw, id := "", solidity := "", attacks := none }⟩

inductive ClassifyOutcome where
  | ok (attacksField : Option (List Attack))
  | httpError (detail : String)
  | parseError
  | networkError
deriving DecidableEq, Repr

def ClassifyOutcome.isFailure : ClassifyOutcome → Bool
  | ClassifyOutcome.ok _ => false
  | _ => true

structure AnalyzeState where
  isLoading : Bool
  result : Option AnalysisResult
deriving DecidableEq, Repr

/-- One complete run of `analyze(contractText, mode, model)` from
useAnalyzeContract.ts, folded over the outcome of the classify request. -/
def analyzeStep (s : AnalyzeState) (contractText : String) (mode : Mode)
    (outcome : ClassifyOutcome) : AnalyzeState :=
  match outcome with
  | ClassifyOutcome.ok attacksField =>
      { isLoading := false
        result := some { mode := mode, id := "user_input", solidity := contractText,
                         attacks := some (attacksField.getD []) } }
  | _ => { isLoading := false, result := s.result }

/-! ## The realtime "new vulnerabilities" diff

Embedding of the diff in `useRealtimeAnalysis` (part_004, lines 80-97):
for each current attack and each of its lines, the line is new unless some
previous attack of the same `type` contains it.
-/

instance : Inhabited Attack :=
  ⟨{ type_ := "", severity := Severity.low, lines := [], description := "", refs := none }⟩

/-- The `newLines` computed by `useRealtimeAnalysis` from the previous and
current attack lists. -/
def computeNewLines (previousAttacks currentAttacks : List Attack) : List Int :=
  currentAttacks.flatMap (fun attack =>
    attack.lines.filter (fun line =>
      ! previousAttacks.any (fun prevAttack =>
        prevAttack.lines.contains line && prevAttack.type_ == attack.type_)))

/-! ## The abort-controller protocol of `useRealtimeAnalysis`

Embedding of part_004, lines 42-116.  Each run of `analyzeCode` aborts the
previous in-flight request and installs a fresh `AbortController`; a fetch
that completes while its controller is still the current one stores its
whole payload with `setResult`; a fetch whose controller was aborted
rejects with `AbortError` and stores nothing.  We model controllers by
increasing numeric ids: `inflight` is the id of the one non-aborted
in-flight call, `nextId` the id the next request will take.
-/

structure RtState where
  inflight : Option Nat
  nextId : Nat
  result : Option AnalysisResult
deriving DecidableEq, Repr

inductive RtEvent where
  | request
  | complete (id : Nat) (payload : AnalysisResult)
deriving DecidableEq, Repr

/-- One step of the protocol: a new request aborts the previous in-flight
call (by superseding its id) and becomes the in-flight call; a completion
stores its payload only when its id is still the in-flight one. -/
def rtStep (s : RtState) (e : RtEvent) : RtState :=
  match e with
  | RtEvent.request =>
      { s with inflight := some s.nextId, nextId := s.nextId + 1 }
  | RtEvent.complete id payload =>
      if s.inflight = some id then
        { s with result := some payload, inflight := none }
      else
        s

/-- Fold a trace of events over the protocol. -/
def runRt (s : RtState) (trace : List RtEvent) : RtState :=
  trace.foldl rtStep s

/-- Ids of in-flight calls were allocated in the past. -/
def RtState.WF (s : RtState) : Prop :=
  match s.inflight with
  | none => True
  | some k => k < s.nextId

/-- Whether an event is the completion of the call with the given id. -/
def isCompleteOf (id : Nat) : RtEvent → Bool
  | RtEvent.request => false
  | RtEvent.complete j _ => j = id

/-! ## The evaluation engine's Matcher

Modelled from the spec: the evaluation engine (§2, §4 of spec.md) is not
present under src/ — the repository holds only the UI, sample contracts and
project notes — so the Matcher of §4.2 is modelled from the spec's words:
candidate pairs between category-equal findings, eligibility by minimum
line distance within the tolerance ceiling, sorting by (overlap descending,
minimum distance ascending, ground-truth first line ascending, then a
deterministic tie-break), greedy one-to-one assignment, leftovers becoming
false positives / false negatives.
-/

/-- Modelled from the spec: the internal validated Finding shape (§3) —
category, severity, line list.  Description is not used in scoring. -/
structure Finding where
  category : String
  severity : Severity
  lines : List Int
deriving DecidableEq, Repr

instance : Inhabited Finding :=
  ⟨{ category := "", severity := Severity.low, lines := [] }⟩

/-- Case/whitespace-insensitive category normalization (§4.1, §4.2 step 1):
drop surrounding whitespace, lowercase the rest. -/
def normCat (s : String) : String :=
  String.mk ((((s.data.dropWhile Char.isWhitespace).reverse.dropWhile
    Char.isWhitespace).reverse).map Char.toLower)

/-- Distance between two line numbers. -/
def lineDist (a b : Int) : Nat :=
  (a - b).natAbs

/-- Size of the intersection of two line sets (§4.2 step 2). -/
def lineOverlap (xs ys : List Int) : Nat :=
  (xs.filter (fun x => x ∈ ys)).length

/-- Sentinel distance larger than any tolerance ceiling, used when one of
the line lists is empty (a schema-valid Finding has non-empty lines). -/
def noDist : Nat := 1000000

/-- Minimum pairwise line distance between two line sets (§4.2 step 2). -/
def minLineDist (xs ys : List Int) : Nat :=
  ((xs.flatMap (fun a => ys.map (fun b => lineDist a b))).min?).getD noDist

/-- A candidate pair: predicted index, ground-truth index, overlap size,
minimum line distance, ground-truth first line (for the tie-break). -/
structure Cand where
  pi : Nat
  gi : Nat
  overlap : Nat
  mdist : Nat
  gfirst : Int
deriving DecidableEq, Repr

/-- Candidate pairs (§4.2 steps 1-3): only category-equal pairs whose
minimum line distance is within the tolerance ceiling. -/
def candidates (tol : Nat) (P G : List Finding) : List Cand :=
  (List.range P.length).flatMap (fun i =>
    (List.range G.length).filterMap (fun j =>
      let p := P.getD i default
      let g := G.getD j default
      if normCat p.category = normCat g.category ∧ minLineDist p.lines g.lines ≤ tol then
        some { pi := i, gi := j, overlap := lineOverlap p.lines g.lines,
               mdist := minLineDist p.lines g.lines, gfirst := g.lines.headD 0 }
      else
        none))

/-- Sort priority (§4.2 step 4): overlap descending, then minimum distance
ascending, then ground-truth first line ascending, then indices as a final
deterministic tie-break. -/
def candPriority (c d : Cand) : Bool :=
  if c.overlap ≠ d.overlap then d.overlap < c.overlap
  else if c.mdist ≠ d.mdist then c.mdist < d.mdist
  else if c.gfirst ≠ d.gfirst then c.gfirst < d.gfirst
  else if c.pi ≠ d.pi then c.pi < d.pi
  else c.gi ≤ d.gi

/-- Insert a candidate into a priority-sorted list. -/
def insertCand (c : Cand) : List Cand → List Cand
  | [] => [c]
  | d :: ds => if candPriority c d then c :: d :: ds else d :: insertCand c ds

/-- Insertion sort of the candidate list by `candPriority`. -/
def sortCands : List Cand → List Cand
  | [] => []
  | c :: cs => insertCand c (sortCands cs)

/-- Greedy one-to-one assignment (§4.2 step 4): walk the sorted candidates
and assign a pair when neither member has been assigned yet. -/
def greedyAssign : List Cand → List (Nat × Nat) → List (Nat × Nat)
  | [], acc => acc.reverse
  | c :: rest, acc =>
    if c.pi ∈ acc.map Prod.fst ∨ c.gi ∈ acc.map Prod.snd then
      greedyAssign rest acc
    else
      greedyAssign rest ((c.pi, c.gi) :: acc)

/-- A matched true-positive pair with its line distance and severity flag
(§3 MatchResult, §4.2 step 6). -/
structure MatchedPair where
  pIdx : Nat
  gIdx : Nat
  mdist : Nat
  severityMatch : Bool
deriving DecidableEq, Repr

/-- MatchResult (§3): true-positive pairs, unmatched predicted indices
(false positives), unmatched ground-truth indices (false negatives). -/
structure MatchResult where
  pairs : List MatchedPair
  fpIdx : List Nat
  fnIdx : List Nat
deriving DecidableEq, Repr

/-- Modelled from the spec: the Matcher (§4.2) for one contract, at a given
tolerance ceiling. -/
def matchFindings (tol : Nat) (P G : List Finding) : MatchResult :=
  let assigned := greedyAssign (sortCands (candidates tol P G)) []
  { pairs := assigned.map (fun ij =>
      let p := P.getD ij.1 default
      let g := G.getD ij.2 default
      { pIdx := ij.1, gIdx := ij.2, mdist := minLineDist p.lines g.lines,
        severityMatch := p.severity == g.severity })
    fpIdx := (List.range P.length).filter (fun i => i ∉ assigned.map Prod.fst)
    fnIdx := (List.range G.length).filter (fun j => j ∉ assigned.map Prod.snd) }

/-- The widest tolerance tier (±5), the Matcher's default ceiling (§4.2
step 3). -/
def defaultTol : Nat := 5

/-! ## Metric calculators

Modelled from the spec: §4.3's aggregated batch counts and ratios.  A batch
is a list of (predicted, ground-truth) finding-set pairs, one per contract.
-/

/-- Matches of a batch run at a tolerance ceiling, one MatchResult per
contract. -/
def batchMatches (tol : Nat) (batch : List (List Finding × List Finding)) :
    List MatchResult :=
  batch.map (fun pg => matchFindings tol pg.1 pg.2)

/-- Total true positives across the batch. -/
def batchTP (tol : Nat) (batch : List (List Finding × List Finding)) : Nat :=
  ((batchMatches tol batch).map (fun r => r.pairs.length)).sum

/-- Total false positives across the batch. -/
def batchFP (tol : Nat) (batch : List (List Finding × List Finding)) : Nat :=
  ((batchMatches tol batch).map (fun r => r.fpIdx.length)).sum

/-- Total predicted Findings across the batch. -/
def batchPredicted (batch : List (List Finding × List Finding)) : Nat :=
  (batch.map (fun pg => pg.1.length)).sum

/-- Modelled from the spec: the False-Positive Rate (§4.3),
FP ÷ (FP + TP), over counts aggregated across the whole batch. -/
def batchFPR (tol : Nat) (batch : List (List Finding × List Finding)) : ℚ :=
  (batchFP tol batch : ℚ) / ((batchFP tol batch : ℚ) + (batchTP tol batch : ℚ))

/-- Count of true-positive pairs within tolerance tier `t` (§4.3
Localization Accuracy numerator): minimum line distance at most `t`, with
`t = 0` the exact tier, `t = 2` the ±2 tier, `t = 5` the ±5 tier. -/
def tierCount (t : Nat) (r : MatchResult) : Nat :=
  (r.pairs.filter (fun pr => pr.mdist ≤ t)).length

/-! ## The zero-tolerance Matcher as interactive diff (design note)

The design note (§9) proposes replacing the `useRealtimeAnalysis` diff with
the scoring Matcher run at tolerance zero, the current findings as the
prediction set and the previous findings as ground truth; unmatched current
findings are the new ones and their lines the newly highlighted lines.
-/

def attackToFinding (a : Attack) : Finding :=
  { category := a.type_, severity := a.severity, lines := a.lines }

/-- Lines reported new by the zero-tolerance Matcher run against the
previous attack set: the lines of unmatched current attacks. -/
def matcherNewLines (previousAttacks currentAttacks : List Attack) : List Int :=
  let r := matchFindings 0 (currentAttacks.map attackToFinding)
    (previousAttacks.map attackToFinding)
  r.fpIdx.flatMap (fun i => (currentAttacks.getD i default).lines)

/-! ## Retry policy for external prediction calls

Modelled from the spec: §5's prediction-call policy — each external call
has a timeout and is retried a bounded number of times with exponential
backoff; a call that still fails leaves the EvaluationRun recorded as
failed, excluded from correctness metrics, and the batch continues.  The
batch driver is not under src/ (the interactive hooks issue single calls
with no retry), so it is modelled from the spec's words.
-/

inductive CallOutcome where
  | success (findings : List Finding)
  | timeout
  | transportError
deriving DecidableEq, Repr

def CallOutcome.isFailure : CallOutcome → Bool
  | CallOutcome.success _ => false
  | _ => true

structure RetryPolicy where
  maxAttempts : Nat
  baseDelayMs : Nat
deriving DecidableEq, Repr

/-- Exponential backoff delay before retry number `k`. -/
def backoffDelay (pol : RetryPolicy) (k : Nat) : Nat :=
  pol.baseDelayMs * 2 ^ k

inductive RunStatus where
  | succeeded (findings : List Finding)
  | failed
deriving DecidableEq, Repr

def RunStatus.isSuccess : RunStatus → Bool
  | RunStatus.succeeded _ => true
  | RunStatus.failed => false

/-- Attempt loop: `behavior k` is the outcome the external producer gives
attempt number `k`; returns the run status and the number of attempts
used. -/
def retryGo (behavior : Nat → CallOutcome) : Nat → Nat → RunStatus × Nat
  | 0, used => (RunStatus.failed, used)
  | fuel + 1, used =>
    match behavior used with
    | CallOutcome.success fs => (RunStatus.succeeded fs, used + 1)
    | _ => retryGo behavior fuel (used + 1)

/-- Modelled from the spec: one external prediction call under the retry
policy. -/
def retryCall (pol : RetryPolicy) (behavior : Nat → CallOutcome) : RunStatus × Nat :=
  retryGo behavior pol.maxAttempts 0

/-- One evaluation unit: a contract id together with the behaviour of the
external producer for it. -/
structure RunUnit where
  contractId : String
  behavior : Nat → CallOutcome

/-- Modelled from the spec: run every unit of the batch; no failure aborts
the batch — every unit yields a record. -/
def runBatch (pol : RetryPolicy) (units : List RunUnit) :
    List (String × RunStatus × Nat) :=
  units.map (fun u => (u.contractId, retryCall pol u.behavior))

/-- The records that enter correctness-metric aggregation: only successful
runs (§5, §7 — failed runs are excluded, kept for failure-rate accounting). -/
def correctnessRecords (records : List (String × RunStatus × Nat)) :
    List (String × RunStatus × Nat) :=
  records.filter (fun r => r.2.1.isSuccess)

/-! ## Concrete example inputs used by counterexamples and witnesses -/

/-- Previous attack set of the realtime-diff example: one reentrancy
finding on line 1. -/
def prevAttacksEx : List Attack :=
  [{ type_ := "reentrancy", severity := Severity.high, lines := [1],
     description := "reentrant withdraw", refs := none }]

/-- Current attack set of the realtime-diff example: the same reentrancy
finding, now spanning lines 1 and 5. -/
def currAttacksEx : List Attack :=
  [{ type_ := "reentrancy", severity := Severity.high, lines := [1, 5],
     description := "reentrant withdraw", refs := none }]

/-- A prior analyze-hook state holding a stored result. -/
def analyzeStateEx : AnalyzeState :=
  { isLoading := true
    result := some { mode := Mode.raw, id := "user_input",
                     solidity := "pragma solidity", attacks := some [] } }

/-- A 302-line text (301 newlines), over the editor's 300-line limit. -/
def oversizedText : String :=
  String.mk (List.replicate 301 '\n')

/-- A protocol state with call 0 in flight. -/
def rtStateEx : RtState :=
  { inflight := some 0, nextId := 1, result := none }

/-- A concrete analysis payload. -/
def payloadEx : AnalysisResult :=
  { mode := Mode.raw, id := "1", solidity := "pragma solidity", attacks := some [] }

/-- An external producer that times out on every attempt. -/
def alwaysTimeout : Nat → CallOutcome :=
  fun _ => CallOutcome.timeout

/-- A batch unit whose producer always times out. -/
def unitEx : RunUnit :=
  { contractId := "access_control_000", behavior := alwaysTimeout }

/-! # Theorems -/

/-- C3 counterexample: the claim that every Finding record at the public
interface has a category in the closed enumeration and a non-empty line
list is false — `strayAttack` is a value of the interface type `Attack`
(category a free string with a typo, empty line list) that the interface
admits. -/
theorem attack_interface_admits_stray : ¬ wellFormedAttack strayAttack := by
  decide

/-- C3 (amended): the `Attack` interface type enforces the closed
three-value severity set and the list-or-null shape of `refs`, but its
category is a free string — any string, including one outside the ten
attack classes, yields a value of the interface — and its line list may be
empty. -/
theorem attack_interface_shape :
    (∀ a : Attack, a.severity = Severity.low ∨ a.severity = Severity.medium
      ∨ a.severity = Severity.high)
    ∧ (∀ a : Attack, a.refs = none ∨ ∃ rs : List String, a.refs = some rs)
    ∧ (∀ s : String, ∃ a : Attack, a.type_ = s)
    ∧ strayAttack.type_ ∉ attackCategoryValues ∧ strayAttack.lines = [] := by
  refine ⟨fun a => ?_, fun a => ?_,
    fun s => ⟨{ type_ := s, severity := Severity.low, lines := [],
                description := "", refs := none }, rfl⟩,
    by decide, rfl⟩
  · cases h : a.severity
    · exact Or.inl rfl
    · exact Or.inr (Or.inl rfl)
    · exact Or.inr (Or.inr rfl)
  · cases h : a.refs
    · exact Or.inl rfl
    · exact Or.inr ⟨_, rfl⟩

/-- C5: the attack categories offered by the contract generator are
exactly the fixed closed set of ten attack classes, no more and no
fewer. -/
theorem generator_offers_exactly_ten_categories :
    ATTACK_OPTIONS.map (fun o => o.value) = attackCategoryValues
    ∧ ATTACK_OPTIONS.length = 10
    ∧ attackCategoryValues.Nodup := by
  refine ⟨by decide, by decide, by decide⟩

/-- C9: when the classify request of `analyze` fails (non-OK HTTP
response, parse error, or network error), the previously stored analysis
result is kept unchanged, and the loading flag is reset to false. -/
theorem analyze_failure_keeps_previous_result (s : AnalyzeState) (text : String)
    (mode : Mode) (o : ClassifyOutcome) (h : o.isFailure = true) :
    (analyzeStep s text mode o).result = s.result
    ∧ (analyzeStep s text mode o).isLoading = false := by
  cases o with
  | ok attacksField => simp [ClassifyOutcome.isFailure] at h
  | httpError detail => exact ⟨rfl, rfl⟩
  | parseError => exact ⟨rfl, rfl⟩
  | networkError => exact ⟨rfl, rfl⟩

/-- C9 witness: a concrete failed classify call against a state holding a
stored result leaves that result in place. -/
theorem analyze_failure_keeps_previous_result_witness :
    ClassifyOutcome.networkError.isFailure = true
    ∧ (analyzeStep analyzeStateEx "pragma" Mode.raw ClassifyOutcome.networkError).result
        = analyzeStateEx.result
    ∧ (analyzeStep analyzeStateEx "pragma" Mode.raw ClassifyOutcome.networkError).isLoading
        = false :=
  ⟨rfl, analyze_failure_keeps_previous_result analyzeStateEx "pragma" Mode.raw
    ClassifyOutcome.networkError rfl⟩

/-- C10: an editor change whose proposed text exceeds 300 lines is
rejected — the content is reset to the prior value and `onChange` is not
invoked — otherwise the text is forwarded verbatim; hence an editor whose
content is within the limit stays within the limit. -/
theorem editor_enforces_line_limit (value : String) (val : Option String) :
    handleEditorChange value val
      = (if 300 < lineCount (val.getD "") then (value, none)
         else (val.getD "", some (val.getD "")))
    ∧ (lineCount value ≤ 300 → lineCount (handleEditorChange value val).1 ≤ 300) := by
  constructor
  · by_cases h : 300 < lineCount (val.getD "")
    · simp [handleEditorChange, h]
    · simp [handleEditorChange, h]
  · intro hv
    by_cases h : 300 < lineCount (val.getD "")
    · simpa [handleEditorChange, h] using hv
    · simp [handleEditorChange, h]
      omega

set_option maxRecDepth 40000 in
/-- C10 witness: a 302-line proposed text against a one-line editor is
rejected and the editor content stays within the limit. -/
theorem editor_enforces_line_limit_witness :
    lineCount "pragma solidity" ≤ 300
    ∧ lineCount (handleEditorChange "pragma solidity" (some oversizedText)).1 ≤ 300 :=
  ⟨by decide,
   (editor_enforces_line_limit "pragma solidity" (some oversizedText)).2 (by decide)⟩

/-- C7 counterexample: the interactive diff is not the zero-tolerance
Matcher used as a set-difference.  With one previous reentrancy finding on
line 1 and one current reentrancy finding on lines 1 and 5, the diff
reports line 5 as new, while the zero-tolerance Matcher matches the two
findings (they share line 1) and leaves nothing unmatched. -/
theorem realtime_diff_differs_from_matcher :
    computeNewLines prevAttacksEx currAttacksEx = [5]
    ∧ matcherNewLines prevAttacksEx currAttacksEx = [] := by
  exact ⟨by decide, by decide⟩

/-- C7 (amended): the interactive diff is a pure set-difference over
(category, line) pairs — a line is reported new exactly when it occurs in
some current attack and no previous attack of the same category contains
it — rather than the finding-level zero-tolerance Matcher. -/
theorem realtime_diff_is_pair_difference (previousAttacks currentAttacks : List Attack)
    (l : Int) :
    l ∈ computeNewLines previousAttacks currentAttacks
    ↔ ∃ a ∈ currentAttacks, l ∈ a.lines
        ∧ ∀ p ∈ previousAttacks, p.type_ = a.type_ → l ∉ p.lines := by
  simp only [computeNewLines, List.mem_flatMap, List.mem_filter, Bool.not_eq_true',
    List.any_eq_false, Bool.and_eq_true, beq_iff_eq, not_and, List.elem_iff]
  constructor
  · rintro ⟨a, ha, hl, hno⟩
    exact ⟨a, ha, hl, fun p hp hty hmem => hno p hp hmem hty⟩
  · rintro ⟨a, ha, hl, hno⟩
    exact ⟨a, ha, hl, fun p hp hmem hty => hno p hp hty hmem⟩

/-! ## Helper lemmas about the Matcher -/

theorem mem_insertCand {x c : Cand} {ds : List Cand} :
    x ∈ insertCand c ds ↔ x = c ∨ x ∈ ds := by
  induction ds with
  | nil => simp [insertCand]
  | cons d ds ih =>
    simp only [insertCand]
    split
    · simp [List.mem_cons]
    · simp only [List.mem_cons, ih]
      tauto

theorem mem_sortCands {x : Cand} {cs : List Cand} :
    x ∈ sortCands cs ↔ x ∈ cs := by
  induction cs with
  | nil => simp [sortCands]
  | cons c cs ih =>
    simp [sortCands, mem_insertCand, ih]

theorem candidates_bounds {tol : Nat} {P G : List Finding} {c : Cand}
    (h : c ∈ candidates tol P G) : c.pi < P.length ∧ c.gi < G.length := by
  simp only [candidates, List.mem_flatMap, List.mem_filterMap, List.mem_range] at h
  obtain ⟨i, hi, j, hj, hc⟩ := h
  split at hc
  · cases hc
    exact ⟨hi, hj⟩
  · cases hc

theorem greedyAssign_invariant {n m : Nat} (cs : List Cand) :
    ∀ acc : List (Nat × Nat),
    (∀ c ∈ cs, c.pi < n ∧ c.gi < m) →
    (∀ q ∈ acc, q.1 < n ∧ q.2 < m) →
    (acc.map Prod.fst).Nodup →
    (acc.map Prod.snd).Nodup →
    (∀ q ∈ greedyAssign cs acc, q.1 < n ∧ q.2 < m)
    ∧ ((greedyAssign cs acc).map Prod.fst).Nodup
    ∧ ((greedyAssign cs acc).map Prod.snd).Nodup := by
  induction cs with
  | nil =>
    intro acc _ hacc hf hs
    refine ⟨?_, ?_, ?_⟩
    · intro q hq
      exact hacc q (by simpa [greedyAssign] using hq)
    · simpa [greedyAssign, List.map_reverse, List.nodup_reverse] using hf
    · simpa [greedyAssign, List.map_reverse, List.nodup_reverse] using hs
  | cons c cs ih =>
    intro acc hcs hacc hf hs
    simp only [greedyAssign]
    split
    · exact ih acc (fun d hd => hcs d (List.mem_cons_of_mem _ hd)) hacc hf hs
    · rename_i hcond
      push_neg at hcond
      refine ih ((c.pi, c.gi) :: acc)
        (fun d hd => hcs d (List.mem_cons_of_mem _ hd))
        ?_ ?_ ?_
      · intro q hq
        rcases List.mem_cons.1 hq with h | h
        · subst h
          exact hcs c (List.mem_cons_self _ _)
        · exact hacc q h
      · exact List.nodup_cons.2 ⟨hcond.1, hf⟩
      · exact List.nodup_cons.2 ⟨hcond.2, hs⟩

theorem length_filter_not_mem {l : List Nat} {n : Nat} (hN : l.Nodup)
    (hlt : ∀ x ∈ l, x < n) :
    ((List.range n).filter (fun i => decide (i ∉ l))).length + l.length = n := by
  have hperm : ((List.range n).filter (fun i => decide (i ∈ l))).Perm l := by
    rw [List.perm_ext_iff_of_nodup ((List.nodup_range n).filter _) hN]
    intro a
    simp only [List.mem_filter, List.mem_range, decide_eq_true_eq]
    exact ⟨fun h => h.2, fun h => ⟨hlt a h, h⟩⟩
  have hsplit := List.length_eq_length_filter_add (l := List.range n)
    (fun i => decide (i ∈ l))
  rw [List.length_range] at hsplit
  have hnotd : (List.range n).filter (fun i => !decide (i ∈ l))
      = (List.range n).filter (fun i => decide (i ∉ l)) := by
    simp
  rw [hnotd] at hsplit
  rw [hperm.length_eq] at hsplit
  omega

theorem length_filter_mono {α : Type} (l : List α) (p q : α → Bool)
    (h : ∀ a, p a = true → q a = true) :
    (l.filter p).length ≤ (l.filter q).length := by
  induction l with
  | nil => simp
  | cons a l ih =>
    rw [List.filter_cons, List.filter_cons]
    by_cases hp : p a = true
    · rw [if_pos hp, if_pos (h a hp)]
      simpa using ih
    · rw [if_neg hp]
      by_cases hq : q a = true
      · rw [if_pos hq]
        simp only [List.length_cons]
        omega
      · rw [if_neg hq]
        exact ih

/-- The greedy assignment underlying `matchFindings`. -/
def matcherAssigned (tol : Nat) (P G : List Finding) : List (Nat × Nat) :=
  greedyAssign (sortCands (candidates tol P G)) []

theorem matcherAssigned_invariant (tol : Nat) (P G : List Finding) :
    (∀ q ∈ matcherAssigned tol P G, q.1 < P.length ∧ q.2 < G.length)
    ∧ ((matcherAssigned tol P G).map Prod.fst).Nodup
    ∧ ((matcherAssigned tol P G).map Prod.snd).Nodup := by
  refine greedyAssign_invariant (sortCands (candidates tol P G)) []
    (fun c hc => candidates_bounds (mem_sortCands.1 hc)) ?_ ?_ ?_
  · intro q hq
    cases hq
  · simp
  · simp

theorem matchFindings_eq (tol : Nat) (P G : List Finding) :
    matchFindings tol P G
      = { pairs := (matcherAssigned tol P G).map (fun ij =>
            let p := P.getD ij.1 default
            let g := G.getD ij.2 default
            { pIdx := ij.1, gIdx := ij.2, mdist := minLineDist p.lines g.lines,
              severityMatch := p.severity == g.severity })
          fpIdx := (List.range P.length).filter
            (fun i => i ∉ (matcherAssigned tol P G).map Prod.fst)
          fnIdx := (List.range G.length).filter
            (fun j => j ∉ (matcherAssigned tol P G).map Prod.snd) } := by
  rfl

theorem matchFindings_pairs_fst (tol : Nat) (P G : List Finding) :
    (matchFindings tol P G).pairs.map MatchedPair.pIdx
      = (matcherAssigned tol P G).map Prod.fst := by
  rw [matchFindings_eq]
  simp only [List.map_map]
  rfl

theorem matchFindings_pairs_snd (tol : Nat) (P G : List Finding) :
    (matchFindings tol P G).pairs.map MatchedPair.gIdx
      = (matcherAssigned tol P G).map Prod.snd := by
  rw [matchFindings_eq]
  simp only [List.map_map]
  rfl

theorem matchFindings_tp_fp (tol : Nat) (P G : List Finding) :
    (matchFindings tol P G).pairs.length + (matchFindings tol P G).fpIdx.length
      = P.length := by
  obtain ⟨hb, hf, -⟩ := matcherAssigned_invariant tol P G
  have hcount := length_filter_not_mem (l := (matcherAssigned tol P G).map Prod.fst)
    (n := P.length) hf (by
      intro x hx
      obtain ⟨q, hq, rfl⟩ := List.mem_map.1 hx
      exact (hb q hq).1)
  have hlenp : (matchFindings tol P G).pairs.length = (matcherAssigned tol P G).length := by
    rw [matchFindings_eq]
    simp
  rw [matchFindings_eq]
  simp only [List.length_map] at hcount ⊢
  omega

theorem matchFindings_tp_fn (tol : Nat) (P G : List Finding) :
    (matchFindings tol P G).pairs.length + (matchFindings tol P G).fnIdx.length
      = G.length := by
  obtain ⟨hb, -, hs⟩ := matcherAssigned_invariant tol P G
  have hcount := length_filter_not_mem (l := (matcherAssigned tol P G).map Prod.snd)
    (n := G.length) hs (by
      intro x hx
      obtain ⟨q, hq, rfl⟩ := List.mem_map.1 hx
      exact (hb q hq).2)
  rw [matchFindings_eq]
  simp only [List.length_map] at hcount ⊢
  omega

/-- C1: the Matcher is a function producing exactly one MatchResult per
(P, G) pair, in which every predicted index and every ground-truth index
appears in at most one assignment (the matched indices and the leftover
indices are jointly duplicate-free), and after matching
TP + FP = |P| and TP + FN = |G|, both exactly. -/
theorem matcher_no_double_counting (tol : Nat) (P G : List Finding) :
    ((matchFindings tol P G).pairs.length + (matchFindings tol P G).fpIdx.length
        = P.length)
    ∧ ((matchFindings tol P G).pairs.length + (matchFindings tol P G).fnIdx.length
        = G.length)
    ∧ ((matchFindings tol P G).pairs.map MatchedPair.pIdx
        ++ (matchFindings tol P G).fpIdx).Nodup
    ∧ ((matchFindings tol P G).pairs.map MatchedPair.gIdx
        ++ (matchFindings tol P G).fnIdx).Nodup := by
  obtain ⟨-, hf, hs⟩ := matcherAssigned_invariant tol P G
  refine ⟨matchFindings_tp_fp tol P G, matchFindings_tp_fn tol P G, ?_, ?_⟩
  · rw [matchFindings_pairs_fst]
    refine List.Nodup.append hf ?_ ?_
    · rw [matchFindings_eq]
      exact (List.nodup_range P.length).filter _
    · intro a ha hfp
      rw [matchFindings_eq] at hfp
      simp only [List.mem_filter, decide_eq_true_eq] at hfp
      exact hfp.2 ha
  · rw [matchFindings_pairs_snd]
    refine List.Nodup.append hs ?_ ?_
    · rw [matchFindings_eq]
      exact (List.nodup_range G.length).filter _
    · intro a ha hfn
      rw [matchFindings_eq] at hfn
      simp only [List.mem_filter, decide_eq_true_eq] at hfn
      exact hfn.2 ha

/-- C2: over a whole evaluation batch, the False-Positive Rate — defined
as FP ÷ (FP + TP) over aggregated counts — equals total false positives
divided by total predicted Findings. -/
theorem batch_fpr_eq_fp_over_predicted (tol : Nat)
    (batch : List (List Finding × List Finding)) :
    batchFPR tol batch
      = (batchFP tol batch : ℚ) / (batchPredicted batch : ℚ) := by
  have hagg : batchTP tol batch + batchFP tol batch = batchPredicted batch := by
    induction batch with
    | nil => rfl
    | cons pg batch ih =>
      have hpg := matchFindings_tp_fp tol pg.1 pg.2
      simp only [batchTP, batchFP, batchPredicted, batchMatches, List.map_cons,
        List.sum_cons] at ih ⊢
      omega
  rw [batchFPR, ← hagg]
  push_cast
  ring_nf

/-- C4: localization tolerance tiers are cumulative and monotone — for the
true-positive population of any MatchResult, the exact-tier count is at
most the ±2-tier count, which is at most the ±5-tier count. -/
theorem localization_tiers_monotone (tol : Nat) (P G : List Finding) :
    tierCount 0 (matchFindings tol P G) ≤ tierCount 2 (matchFindings tol P G)
    ∧ tierCount 2 (matchFindings tol P G) ≤ tierCount 5 (matchFindings tol P G) := by
  constructor
  · refine length_filter_mono _ _ _ ?_
    intro pr h
    simp only [decide_eq_true_eq] at h ⊢
    omega
  · refine length_filter_mono _ _ _ ?_
    intro pr h
    simp only [decide_eq_true_eq] at h ⊢
    omega

/-! ## Helper lemmas about the realtime protocol -/

theorem rtStep_request_WF (s : RtState) :
    (rtStep s RtEvent.request).WF := by
  simp [rtStep, RtState.WF]

theorem rtStep_complete_WF {s : RtState} (hWF : s.WF) (id : Nat)
    (payload : AnalysisResult) : (rtStep s (RtEvent.complete id payload)).WF := by
  simp only [rtStep]
  split
  · simp [RtState.WF]
  · exact hWF

/-- A superseded call (not in flight, with an already-allocated id) can
never complete into the state: deleting its completion events from any
trace changes nothing. -/
theorem runRt_ignores_superseded (old : Nat) (tr : List RtEvent) :
    ∀ s : RtState, s.WF → s.inflight ≠ some old → old < s.nextId →
    runRt s tr = runRt s (tr.filter (fun e => ! isCompleteOf old e)) := by
  induction tr with
  | nil => intro s _ _ _; rfl
  | cons e tr ih =>
    intro s hWF hnin hold
    cases e with
    | request =>
      have hstep : runRt s (RtEvent.request :: tr) = runRt (rtStep s RtEvent.request) tr :=
        rfl
      have hkeep : (RtEvent.request :: tr).filter (fun e => ! isCompleteOf old e)
          = RtEvent.request :: tr.filter (fun e => ! isCompleteOf old e) := by
        simp [isCompleteOf]
      rw [hstep, hkeep]
      have h1 : (rtStep s RtEvent.request).WF := rtStep_request_WF s
      have h2 : (rtStep s RtEvent.request).inflight ≠ some old := by
        simp only [rtStep]
        intro hcontra
        have : s.nextId = old := by simpa using hcontra
        omega
      have h3 : old < (rtStep s RtEvent.request).nextId := by
        simp only [rtStep]
        omega
      exact ih (rtStep s RtEvent.request) h1 h2 h3
    | complete id payload =>
      by_cases hid : id = old
      · subst hid
        have hdrop : (RtEvent.complete id payload :: tr).filter
            (fun e => ! isCompleteOf id e)
            = tr.filter (fun e => ! isCompleteOf id e) := by
          simp [isCompleteOf]
        have hnoop : rtStep s (RtEvent.complete id payload) = s := by
          simp only [rtStep]
          rw [if_neg hnin]
        have hstep : runRt s (RtEvent.complete id payload :: tr)
            = runRt (rtStep s (RtEvent.complete id payload)) tr := rfl
        rw [hstep, hnoop, hdrop]
        exact ih s hWF hnin hold
      · have hkeep : (RtEvent.complete id payload :: tr).filter
            (fun e => ! isCompleteOf old e)
            = RtEvent.complete id payload
                :: tr.filter (fun e => ! isCompleteOf old e) := by
          simp [isCompleteOf, hid]
        have hstep : runRt s (RtEvent.complete id payload :: tr)
            = runRt (rtStep s (RtEvent.complete id payload)) tr := rfl
        rw [hstep, hkeep]
        have h1 := rtStep_complete_WF hWF id payload
        have h2 : (rtStep s (RtEvent.complete id payload)).inflight ≠ some old := by
          simp only [rtStep]
          split
          · simp
          · exact hnin
        have h3 : old < (rtStep s (RtEvent.complete id payload)).nextId := by
          simp only [rtStep]
          split
          · simpa using hold
          · exact hold
        exact ih (rtStep s (RtEvent.complete id payload)) h1 h2 h3

/-- C6: when a newer request supersedes an in-flight call, the superseded
call's completions are discarded — deleting them from any subsequent trace
yields the same final state, so only the most recent call's result is ever
kept — and every step either leaves the stored result unchanged or
replaces it wholesale with one completed call's payload, never merging. -/
theorem realtime_supersede_discards (s : RtState) (hWF : s.WF) :
    (∀ old, s.inflight = some old → ∀ tr : List RtEvent,
        runRt (rtStep s RtEvent.request) tr
          = runRt (rtStep s RtEvent.request)
              (tr.filter (fun e => ! isCompleteOf old e)))
    ∧ (∀ e, (rtStep s e).result = s.result
        ∨ ∃ id payload, e = RtEvent.complete id payload
            ∧ (rtStep s e).result = some payload) := by
  constructor
  · intro old hin tr
    have hold : old < s.nextId := by
      have := hWF
      rw [RtState.WF, hin] at this
      exact this
    refine runRt_ignores_superseded old tr (rtStep s RtEvent.request)
      (rtStep_request_WF s) ?_ ?_
    · simp only [rtStep]
      intro hcontra
      have : s.nextId = old := by simpa using hcontra
      omega
    · simp only [rtStep]
      omega
  · intro e
    cases e with
    | request => exact Or.inl rfl
    | complete id payload =>
      simp only [rtStep]
      split
      · exact Or.inr ⟨id, payload, rfl, rfl⟩
      · exact Or.inl rfl

/-- C6 witness: in a concrete state with call 0 in flight, issuing a new
request and then completing call 0 is the same as never completing it. -/
theorem realtime_supersede_discards_witness :
    runRt (rtStep rtStateEx RtEvent.request) [RtEvent.complete 0 payloadEx]
      = runRt (rtStep rtStateEx RtEvent.request)
          ([RtEvent.complete 0 payloadEx].filter (fun e => ! isCompleteOf 0 e)) :=
  (realtime_supersede_discards rtStateEx Nat.one_pos).1 0 rfl
    [RtEvent.complete 0 payloadEx]

/-! ## Helper lemmas about the retry policy -/

theorem retryGo_attempts_le (behavior : Nat → CallOutcome) :
    ∀ fuel used, (retryGo behavior fuel used).2 ≤ used + fuel := by
  intro fuel
  induction fuel with
  | zero => intro used; simp [retryGo]
  | succ fuel ih =>
    intro used
    simp only [retryGo]
    cases behavior used
    · simp
    · have := ih (used + 1)
      simpa [Nat.add_comm, Nat.add_left_comm] using this
    · have := ih (used + 1)
      simpa [Nat.add_comm, Nat.add_left_comm] using this

theorem retryGo_all_fail (behavior : Nat → CallOutcome)
    (hfail : ∀ k, (behavior k).isFailure = true) :
    ∀ fuel used, (retryGo behavior fuel used).1 = RunStatus.failed := by
  intro fuel
  induction fuel with
  | zero => intro used; rfl
  | succ fuel ih =>
    intro used
    simp only [retryGo]
    cases hb : behavior used
    · have := hfail used
      rw [hb] at this
      simp [CallOutcome.isFailure] at this
    · exact ih (used + 1)
    · exact ih (used + 1)

/-- C8: an external prediction call is retried at most the configured
number of attempts, with a nondecreasing (exponential) backoff delay; a
call whose every attempt fails yields a run recorded as failed; the batch
is never aborted — every unit produces a record — and failed runs are
excluded from correctness-metric aggregation. -/
theorem prediction_retry_policy (pol : RetryPolicy) (behavior : Nat → CallOutcome)
    (units : List RunUnit) :
    (retryCall pol behavior).2 ≤ pol.maxAttempts
    ∧ ((∀ k, (behavior k).isFailure = true) →
        (retryCall pol behavior).1 = RunStatus.failed)
    ∧ (runBatch pol units).length = units.length
    ∧ (∀ r ∈ correctnessRecords (runBatch pol units), r.2.1 ≠ RunStatus.failed)
    ∧ (∀ k, backoffDelay pol k ≤ backoffDelay pol (k + 1)) := by
  refine ⟨?_, ?_, ?_, ?_, ?_⟩
  · have := retryGo_attempts_le behavior pol.maxAttempts 0
    simpa [retryCall] using this
  · intro hfail
    exact retryGo_all_fail behavior hfail pol.maxAttempts 0
  · simp [runBatch]
  · intro r hr
    simp only [correctnessRecords, List.mem_filter] at hr
    intro hcontra
    rw [hcontra] at hr
    simp [RunStatus.isSuccess] at hr
  · intro k
    refine Nat.mul_le_mul_left _ ?_
    exact Nat.pow_le_pow_right (by omega) (Nat.le_succ k)

/-- C8 witness: with a producer that times out on every attempt, a
three-attempt policy records the run as failed. -/
theorem prediction_retry_policy_witness :
    (retryCall { maxAttempts := 3, baseDelayMs := 100 } alwaysTimeout).1
      = RunStatus.failed :=
  (prediction_retry_policy { maxAttempts := 3, baseDelayMs := 100 } alwaysTimeout
    [unitEx]).2.1 (fun _ => rfl)

end SolidGuard
